import Mathlib

/-!
Shallow embedding of the boy-2-girl-voice-modulator audio pipeline.

Modules embedded (floats are embedded as exact rationals or reals):
* `Models`       — src/backend/models.py (pydantic field validation)
* `Bridge`       — src/src/IOAudioLayer.py (bounded queues, hardware callback)
* `Processment`  — src/src/processment.py (phase-accumulating sine generator)
* `Research`     — src/src/ResearchLayer.py (accumulation buffer, crossfade)
* `Processor`    — src/backend/audio_processor.py (transform chain, normalization,
                   config update / stream start / stop event order)
-/

namespace Models

/-- Structure `VoiceProfile` from src/backend/models.py: the eight profile fields.
Float values are embedded as exact rationals. -/
structure VoiceProfile where
  name : String
  pitch_shift : ℚ
  formant_shift : ℚ
  resonance : ℚ
  brightness : ℚ
  timbre_shift : ℚ
  gender_strength : ℚ
  breath_noise : ℚ
deriving DecidableEq

/-- The conjunction of the `ge`/`le` bounds declared on the pydantic fields of
`VoiceProfile` in src/backend/models.py lines 20-26. -/
def inVoiceProfileRange (p f r b t g bn : ℚ) : Prop :=
  -12 ≤ p ∧ p ≤ 12 ∧ 3/5 ≤ f ∧ f ≤ 7/5 ∧ 0 ≤ r ∧ r ≤ 100 ∧
    -10 ≤ b ∧ b ≤ 10 ∧ 1/2 ≤ t ∧ t ≤ 2 ∧ 0 ≤ g ∧ g ≤ 100 ∧ 0 ≤ bn ∧ bn ≤ 100

instance (p f r b t g bn : ℚ) : Decidable (inVoiceProfileRange p f r b t g bn) := by
  unfold inVoiceProfileRange; infer_instance

/-- Construction of a `VoiceProfile` through pydantic: every field carries
`Field(..., ge=lo, le=hi)` constraints, and pydantic raises a `ValidationError`
(modelled as `none`) when any constraint is violated; it does not clamp. -/
def mkVoiceProfile (name : String) (p f r b t g bn : ℚ) : Option VoiceProfile :=
  if inVoiceProfileRange p f r b t g bn then
    some ⟨name, p, f, r, b, t, g, bn⟩
  else none

/-- Structure `AudioConfig` from src/backend/models.py. Device indexes are optional ints. -/
structure AudioConfig where
  input_device : Option ℤ
  output_device : Option ℤ
  buffer_size : ℤ
  sample_rate : ℤ
  enabled : Bool
deriving DecidableEq

end Models

namespace Bridge

/-- An audio block: a sequence of mono float samples. -/
abbrev Block := List ℚ

/-- Model of `queue.Queue.put_nowait` as used in `IOAudioLayer._callback`
(src/src/IOAudioLayer.py lines 24-27): if the bounded queue is full the
`queue.Full` exception is swallowed (`pass`), i.e. the fresh block is dropped
and the queue is unchanged; otherwise the block is appended at the back. -/
def put_nowait (maxsize : ℕ) (q : List Block) (b : Block) : List Block :=
  if q.length < maxsize then q ++ [b] else q

/-- Embedding of `IOAudioLayer._callback` (src/src/IOAudioLayer.py lines 20-32): push a copy
of the captured input block onto the input queue (dropping it when full), and
fill the output from the front of the output queue, emitting an all-zero block
of the input's shape (`np.zeros_like(indata)`) when the output queue is empty.
Result: (new input queue, new output queue, emitted output block). -/
def callback (maxsize : ℕ) (inq outq : List Block) (indata : Block) :
    List Block × List Block × Block :=
  let inq2 := put_nowait maxsize inq indata
  match outq with
  | [] => (inq2, [], List.replicate indata.length 0)
  | b :: rest => (inq2, rest, b)

end Bridge

namespace Processment

open Real

/-- One call of `senoidal_wave_generator` (src/src/processment.py lines 9-16)
started at accumulated phase `base_phase`: sample `i` is
`sin(2*pi*frequency*((i + base_phase)/rate))`.  The source keeps `base_phase`
in a module global and adds `num_samples` to it after each call. -/
noncomputable def senoidal_wave (frequency rate base_phase : ℝ)
    (num_samples : ℕ) : List ℝ :=
  (List.range num_samples).map fun (i : ℕ) =>
    Real.sin (2 * Real.pi * frequency * (((i : ℝ) + base_phase) / rate))

/-- Consecutive calls of `senoidal_wave_generator` with chunk sizes `ns`,
threading the module-global `base_phase` (incremented by the chunk size after
each call), with the produced carriers concatenated in call order. -/
noncomputable def senoidal_blocks (frequency rate : ℝ) (base_phase : ℝ) :
    List ℕ → List ℝ
  | [] => []
  | n :: rest =>
      senoidal_wave frequency rate base_phase n ++
        senoidal_blocks frequency rate (base_phase + (n : ℝ)) rest

end Processment

namespace Research

/-- Model of `np.linspace(start, stop, num)`: `num` evenly spaced values; for `num >= 2`
the step is `(stop-start)/(num-1)`; `np.linspace(a, b, 1) = [a]`. -/
def linspace (start stop : ℚ) (num : ℕ) : List ℚ :=
  if num = 0 then []
  else if num = 1 then [start]
  else (List.range num).map fun (i : ℕ) => start + (stop - start) * i / ((num : ℚ) - 1)

/-- The crossfade of `ResearchLayer.analyze_and_synthesize`
(src/src/ResearchLayer.py lines 43-51): `blended` is a copy of `synthesized`
whose first `fade_len` samples are
`synthesized[:fade_len]*fade_in + prev_tail[:fade_len]*fade_out` with linear
ramps `fade_in = linspace(0,1,fade_len)` and `fade_out = linspace(1,0,fade_len)`. -/
def crossfade (synthesized prev_tail : List ℚ) (fade_len : ℕ) : List ℚ :=
  (List.range synthesized.length).map fun i =>
    if i < fade_len then
      synthesized.getD i 0 * (linspace 0 1 fade_len).getD i 0 +
        prev_tail.getD i 0 * (linspace 1 0 fade_len).getD i 0
    else synthesized.getD i 0

/-- The mutable state of a `ResearchLayer` instance
(src/src/ResearchLayer.py lines 6-16). -/
structure ResearchLayer where
  samplerate : ℕ
  frame_length : ℕ
  hop_length : ℕ
  buffer : List ℚ
  prev_tail : List ℚ
  overlap : ℚ
deriving DecidableEq

/-- Embedding of `ResearchLayer.analyze_and_synthesize` (src/src/ResearchLayer.py lines
18-58).  The pyworld vocoder calls (`pw.harvest`, `pw.cheaptrick`, `pw.d4c`,
`pw.synthesize`), the exponential F0 smoothing and the `TransformLayer`
parameter mapping between them form the analysis/synthesis section (lines
30-40); that section consumes only `current_block` and produces only
`synthesized`, so it is abstracted here as the oracle parameter `world`
(theorems below quantify over every `world`, hence cover the real composite).
The buffering, crossfade and tail bookkeeping are embedded exactly.
Returns (output block, new state). -/
def analyze_and_synthesize (world : List ℚ → List ℚ)
    (st : ResearchLayer) (frame : List ℚ) : List ℚ × ResearchLayer :=
  let buffer := st.buffer ++ frame
  if buffer.length < st.frame_length then
    (List.zipWith (fun a b => a * (9/10) + b * (1/10))
        frame (st.prev_tail.take frame.length),
      { st with buffer := buffer })
  else
    let current_block := buffer.take st.frame_length
    let buffer2 := buffer.drop st.hop_length
    let synthesized := world current_block
    let fade_len := (⌊(st.frame_length : ℚ) * st.overlap⌋).toNat
    let blended := crossfade synthesized st.prev_tail fade_len
    let prev_tail2 := blended.drop (blended.length - st.frame_length)
    (blended.take frame.length,
      { st with buffer := buffer2, prev_tail := prev_tail2 })

end Research

namespace Processor

/-- Model of `np.max(np.abs(audio))`: the peak magnitude of a block.  `np.max` faults on
an empty array, so theorems about it assume a non-empty block; on non-empty
blocks this fold equals the numpy value because every `|x|` is nonnegative. -/
noncomputable def maxAbs (xs : List ℝ) : ℝ :=
  xs.foldr (fun x m => max |x| m) 0

/-- The normalization step of `AudioProcessor._process_audio`
(src/backend/audio_processor.py lines 236-239): when the peak magnitude
exceeds 0.95 the whole block is scaled by `0.95 / max_val`. -/
noncomputable def normalize (audio : List ℝ) : List ℝ :=
  if 0.95 < maxAbs audio then audio.map (fun x => x * (0.95 / maxAbs audio))
  else audio

/-- Model of `np.hanning(M)`: sample `i` is `0.5 - 0.5*cos(2*pi*i/(M-1))`; used for the
STFT window `self.window = np.hanning(self.window_size)` with
`window_size = 2048`. -/
noncomputable def hanning (M : ℕ) : List ℝ :=
  (List.range M).map fun (i : ℕ) =>
    1/2 - 1/2 * Real.cos (2 * Real.pi * (i : ℝ) / ((M : ℝ) - 1))

/-- Model of `scipy.fft.rfft`: the real-input discrete Fourier transform, returning the
`n/2 + 1` nonnegative-frequency bins. -/
noncomputable def rfft (xs : List ℝ) : List ℂ :=
  (List.range (xs.length / 2 + 1)).map fun (k : ℕ) =>
    ∑ t ∈ Finset.range xs.length,
      (xs.getD t 0 : ℂ) *
        Complex.exp (-2 * (Real.pi : ℂ) * Complex.I * (k : ℂ) * (t : ℂ) / (xs.length : ℂ))

/-- Model of `scipy.fft.irfft(spec, n)`: inverse real FFT evaluated at output length
`n` (the second argument fixes the number of output samples).  Bin 0 and the
Nyquist bin are counted once, all other bins twice (their conjugate mirror). -/
noncomputable def irfft (spec : List ℂ) (n : ℕ) : List ℝ :=
  (List.range n).map fun (t : ℕ) =>
    ((1 / (n : ℂ)) * ∑ k ∈ Finset.range spec.length,
      (if k = 0 ∨ 2 * k = n then 1 else 2) * spec.getD k 0 *
        Complex.exp (2 * (Real.pi : ℂ) * Complex.I * (k : ℂ) * (t : ℂ) / (n : ℂ))).re

/-- Model of `np.fft.rfftfreq(n, 1/sample_rate)`: bin `k` maps to frequency
`k * sample_rate / n`, for the `n/2 + 1` rfft bins. -/
noncomputable def rfftfreq (n : ℕ) (sr : ℕ) : List ℝ :=
  (List.range (n / 2 + 1)).map fun (k : ℕ) => (k : ℝ) * (sr : ℝ) / (n : ℝ)

/-- The interpolation kernel of `np.interp`: piecewise-linear through the
nodes `(xp i, fp i)` (assumed sorted, as numpy does), constant beyond the
first/last node. -/
noncomputable def interpAt : List ℝ → List ℝ → ℝ → ℝ
  | [], _, _ => 0
  | _ :: _, [], _ => 0
  | [_], y0 :: _, _ => y0
  | x0 :: x1 :: xs, y0 :: ys, x =>
      if x < x0 then y0
      else if x ≤ x1 then
        y0 + (x - x0) * (ys.getD 0 0 - y0) / (x1 - x0)
      else interpAt (x1 :: xs) ys x

/-- Model of `np.interp(x, xp, fp)` mapped over a list of sample positions `x`.
numpy raises a `ValueError` (modelled as `none`) when `xp` and `fp` have
different lengths or are empty. -/
noncomputable def np_interp_points (xp fp x : List ℝ) : Option (List ℝ) :=
  if xp.length = fp.length ∧ xp ≠ [] then some (x.map (interpAt xp fp))
  else none

/-- numpy element-wise product of two 1-d arrays under broadcasting: defined
when the lengths agree or either length is 1; otherwise numpy raises a shape
mismatch `ValueError` (modelled as `none`). -/
def npMul (a b : List ℝ) : Option (List ℝ) :=
  if a.length = b.length then some (List.zipWith (· * ·) a b)
  else if a.length = 1 then some (b.map fun y => a.getD 0 0 * y)
  else if b.length = 1 then some (a.map fun x => x * b.getD 0 0)
  else none

/-- numpy element-wise sum of two 1-d arrays under broadcasting (same shape
rule as `npMul`). -/
def npAdd (a b : List ℝ) : Option (List ℝ) :=
  if a.length = b.length then some (List.zipWith (· + ·) a b)
  else if a.length = 1 then some (b.map fun y => a.getD 0 0 + y)
  else if b.length = 1 then some (a.map fun x => x + b.getD 0 0)
  else none

/-- Model of `np.arange(0, stop, step)` for a positive real `step`: the values
`0, step, 2*step, ...` strictly below `stop`, i.e. `ceil(stop/step)` values. -/
noncomputable def np_arange (stop step : ℝ) : List ℝ :=
  if step ≤ 0 then []
  else (List.range ⌈stop / step⌉₊).map fun (i : ℕ) => (i : ℝ) * step

/-- Model of `scipy.signal.resample(xs, num)` (Fourier-method resampling): truncate or
zero-pad the rfft spectrum to the target bin count, inverse-transform at the
target length and rescale by `num/len(xs)`.  Its output always has exactly
`num` samples, which is the only property the proofs below use. -/
noncomputable def resample (xs : List ℝ) (num : ℕ) : List ℝ :=
  let spec := rfft xs
  (irfft ((List.range (num / 2 + 1)).map fun k => spec.getD k 0) num).map
    fun x => x * ((num : ℝ) / (xs.length : ℝ))

/-- Embedding of `AudioProcessor._pitch_shift` (src/backend/audio_processor.py lines
93-121): bypass for `|semitones| < 0.01`; otherwise sample the block at
positions `np.arange(0, len, ratio)` with `ratio = 2**(semitones/12)`, clip the
positions into `[0, len-1]`, linearly interpolate, and resample back to the
original length when the count changed. -/
noncomputable def pitch_shift (audio : List ℝ) (semitones : ℚ) : Option (List ℝ) :=
  if |semitones| < 1/100 then some audio
  else
    let r : ℝ := Real.rpow 2 ((semitones : ℝ) / 12)
    let indices := np_arange (audio.length : ℝ) r
    let clipped := indices.map fun x => min (max x 0) ((audio.length : ℝ) - 1)
    (np_interp_points ((List.range audio.length).map fun (i : ℕ) => (i : ℝ)) audio clipped).map
      fun shifted =>
        if shifted.length ≠ audio.length then resample shifted audio.length
        else shifted

/-- Embedding of `AudioProcessor._formant_shift` (src/backend/audio_processor.py lines
123-149): bypass for `|shift - 1| < 0.01`; otherwise window the block
(`audio * self.window`, a broadcast product that faults unless the lengths
match), take the rfft, warp the magnitude spectrum by interpolation at the
scaled frequency axis, keep each bin's phase, and inverse-transform at the
block length. -/
noncomputable def formant_shift (sr : ℕ) (window audio : List ℝ) (shift : ℚ) :
    Option (List ℝ) :=
  if |shift - 1| < 1/100 then some audio
  else
    (npMul audio window).bind fun windowed =>
      let spectrum := rfft windowed
      let freqs := rfftfreq audio.length sr
      let new_freqs := freqs.map fun f => f * (shift : ℝ)
      (np_interp_points new_freqs (spectrum.map Complex.abs) freqs).map fun mags =>
        irfft
          (List.zipWith
            (fun (m : ℝ) (z : ℂ) => (m : ℂ) * Complex.exp (Complex.I * (z.arg : ℂ)))
            mags spectrum)
          audio.length

/-- Embedding of `AudioProcessor._apply_resonance` (src/backend/audio_processor.py lines
151-172): bypass for `resonance < 1`; otherwise add a copy delayed by
`int(sample_rate * 0.01)` samples, scaled by `(resonance/100)*0.3`.  The
python slice `audio[:-delay]` is empty when `delay = 0`, in which case the
numpy sum is a shape mismatch (modelled through `npAdd`). -/
noncomputable def apply_resonance (sr : ℕ) (audio : List ℝ) (resonance : ℚ) :
    Option (List ℝ) :=
  if resonance < 1 then some audio
  else
    let delay_samples := sr / 100
    if delay_samples < audio.length then
      let sliced :=
        if delay_samples = 0 then []
        else audio.take (audio.length - delay_samples)
      let delayed := List.replicate delay_samples (0 : ℝ) ++ sliced
      npAdd audio (delayed.map fun d => d * ((resonance : ℝ) / 100) * (3/10))
    else some audio

/-- Embedding of `AudioProcessor._apply_brightness` (src/backend/audio_processor.py lines
174-207): bypass for `|brightness_db| < 0.1`; otherwise multiply every rfft
bin above the 2 kHz cutoff by the linear gain `10**(brightness_db/20)` and
inverse-transform at the block length. -/
noncomputable def apply_brightness (sr : ℕ) (audio : List ℝ) (brightness_db : ℚ) :
    List ℝ :=
  if |brightness_db| < 1/10 then audio
  else
    let gain : ℝ := Real.rpow 10 ((brightness_db : ℝ) / 20)
    let spectrum := rfft audio
    let freqs := rfftfreq audio.length sr
    let gain_curve := freqs.map fun f => if 2000 < f then gain else (1 : ℝ)
    irfft (List.zipWith (fun z g => z * (g : ℂ)) spectrum gain_curve) audio.length

/-- Embedding of `AudioProcessor._process_audio` (src/backend/audio_processor.py lines
209-245): the gated chain pitch -> formant -> resonance -> brightness followed
by the normalization step.  A numpy fault in a stage propagates out of
`_process_audio` (modelled by the `Option` bind). -/
noncomputable def process_audio (p : Models.VoiceProfile) (sr : ℕ)
    (window audio : List ℝ) : Option (List ℝ) :=
  (if 1/100 < |p.pitch_shift| then pitch_shift audio p.pitch_shift
   else some audio).bind fun a1 =>
  (if 1/100 < |p.formant_shift - 1| then formant_shift sr window a1 p.formant_shift
   else some a1).bind fun a2 =>
  (if (1 : ℚ) < p.resonance then apply_resonance sr a2 p.resonance
   else some a2).bind fun a3 =>
  some (normalize (if 1/10 < |p.brightness| then apply_brightness sr a3 p.brightness
                   else a3))

/-- Observable stream events: `sd.Stream.stop` (with `close`) and a fresh
stream being created and started. -/
inductive Event where
  | stop : Event
  | start : Event
deriving DecidableEq

/-- The fields of `AudioProcessor` relevant to configuration changes:
`stream` is whether `self.stream is not None`. -/
structure APState where
  config : Models.AudioConfig
  sample_rate : ℤ
  stream : Bool
  processing_enabled : Bool
deriving DecidableEq

/-- Embedding of `AudioProcessor.stop` (src/backend/audio_processor.py lines 314-322):
disable processing; if a stream exists, stop and close it (one `stop` event)
and clear it. -/
def stopAP (s : APState) : APState × List Event :=
  if s.stream then
    ({ s with processing_enabled := false, stream := false }, [Event.stop])
  else ({ s with processing_enabled := false }, [])

/-- Embedding of `AudioProcessor.start` (src/backend/audio_processor.py lines 289-312):
stop any existing stream first, then enable processing, build a new stream and
start it (one `start` event). -/
def startAP (s : APState) : APState × List Event :=
  let p := if s.stream then stopAP s else (s, [])
  ({ p.1 with processing_enabled := true, stream := true }, p.2 ++ [Event.start])

/-- Embedding of `AudioProcessor.update_config` (src/backend/audio_processor.py lines
64-84): store the new config and sample rate; when a device, the buffer size
or the sample rate changed and a stream exists, stop it and, if the new config
is enabled, start it again. -/
def update_config (s : APState) (c : Models.AudioConfig) : APState × List Event :=
  let needs_restart :=
    s.config.input_device ≠ c.input_device ∨
    s.config.output_device ≠ c.output_device ∨
    s.config.buffer_size ≠ c.buffer_size ∨
    s.config.sample_rate ≠ c.sample_rate
  let s1 : APState := { s with config := c, sample_rate := c.sample_rate }
  if needs_restart ∧ s1.stream = true then
    let p := stopAP s1
    if c.enabled then
      let q := startAP p.1
      (q.1, p.2 ++ q.2)
    else p
  else (s1, [])

end Processor

section Theorems

/-- Generic lookup into a tabulated list. -/
theorem getD_range_map {α : Type*} (f : ℕ → α) (n i : ℕ) (hi : i < n) (d : α) :
    (((List.range n).map f).getD i d) = f i := by
  rw [List.getD_eq_getElem?_getD, List.getElem?_map, List.getElem?_range hi]
  rfl

/-- C3 (counterexample): with the 2-slot input queue full (holding blocks
`[0]` then `[1]`), the hardware callback pushing the fresh block `[2]` leaves
the queue unchanged: the oldest block `[0]` is kept and the newest block `[2]`
is NOT retained, contradicting the drop-oldest/keep-newest claim. -/
theorem callback_full_drops_newest_cex :
    (Bridge.callback 2 [[0], [1]] [] [2]).1 = [[0], [1]] ∧
      ¬ ([2] : Bridge.Block) ∈ (Bridge.callback 2 [[0], [1]] [] [2]).1 := by
  decide

/-- C3 (amended): when the input queue is full as the hardware callback pushes
a freshly captured block, the fresh (newest) block is dropped and the queue is
left unchanged, retaining all older pending blocks; the `queue.Full` exception
is swallowed, so the callback neither throws nor blocks. -/
theorem callback_full_keeps_queue (maxsize : ℕ) (inq outq : List Bridge.Block)
    (indata : Bridge.Block) (hfull : inq.length = maxsize) :
    (Bridge.callback maxsize inq outq indata).1 = inq := by
  unfold Bridge.callback Bridge.put_nowait
  rcases outq with _ | ⟨b, rest⟩ <;> simp [hfull]

/-- Witness for C3's amended theorem at a concrete full queue. -/
theorem callback_full_keeps_queue_witness :
    (Bridge.callback 2 [[3], [4]] [[5]] [6]).1 = [[3], [4]] :=
  callback_full_keeps_queue 2 [[3], [4]] [[5]] [6] rfl

/-- C5: when the output queue is empty as the hardware callback needs data, it
emits an all-zero block of the same length/shape as the captured input block,
leaves the output queue empty, and (the `queue.Empty` exception being caught)
neither blocks nor raises. -/
theorem callback_empty_output_silence (maxsize : ℕ) (inq : List Bridge.Block)
    (indata : Bridge.Block) :
    (Bridge.callback maxsize inq [] indata).2.2 = List.replicate indata.length 0 ∧
      (Bridge.callback maxsize inq [] indata).2.2.length = indata.length ∧
      (Bridge.callback maxsize inq [] indata).2.1 = [] := by
  unfold Bridge.callback
  simp

/-- C4 (counterexample): constructing a `VoiceProfile` with
`pitch_shift = 13` (outside `[-12, 12]`) raises a pydantic `ValidationError`
(modelled as `none`) instead of clamping to the range, contradicting the
clamp-and-never-fault claim. -/
theorem mkVoiceProfile_range_cex :
    Models.mkVoiceProfile "Test" 13 1 0 0 1 50 0 = none := by
  decide

/-- C4 (amended): pydantic validates each `VoiceProfile` field against its
closed range: construction succeeds exactly when every field is in range, in
which case the fields are stored unchanged (no clamping); any out-of-range
value makes construction fail with a validation error. -/
theorem mkVoiceProfile_validates (name : String) (p f r b t g bn : ℚ) :
    ((Models.mkVoiceProfile name p f r b t g bn).isSome ↔
        Models.inVoiceProfileRange p f r b t g bn) ∧
      (Models.inVoiceProfileRange p f r b t g bn →
        Models.mkVoiceProfile name p f r b t g bn =
          some ⟨name, p, f, r, b, t, g, bn⟩) ∧
      (¬ Models.inVoiceProfileRange p f r b t g bn →
        Models.mkVoiceProfile name p f r b t g bn = none) := by
  unfold Models.mkVoiceProfile
  split_ifs with h <;> simp [h]

/-- Witness for C4's amended theorem at the in-range default field values. -/
theorem mkVoiceProfile_validates_witness :
    ((Models.mkVoiceProfile "Default" 0 1 0 0 1 50 0).isSome ↔
        Models.inVoiceProfileRange 0 1 0 0 1 50 0) ∧
      (Models.inVoiceProfileRange 0 1 0 0 1 50 0 →
        Models.mkVoiceProfile "Default" 0 1 0 0 1 50 0 =
          some ⟨"Default", 0, 1, 0, 0, 1, 50, 0⟩) ∧
      (¬ Models.inVoiceProfileRange 0 1 0 0 1 50 0 →
        Models.mkVoiceProfile "Default" 0 1 0 0 1 50 0 = none) :=
  mkVoiceProfile_validates "Default" 0 1 0 0 1 50 0

/-- C7: the phase accumulator makes the ring-modulation carrier continuous
across block boundaries: for every frequency, rate, starting phase and any
sequence of chunk sizes, the concatenation of the consecutively generated
carriers equals one continuous generation of the total length from the same
starting phase. -/
theorem senoidal_phase_continuity (frequency rate base_phase : ℝ) (ns : List ℕ) :
    Processment.senoidal_blocks frequency rate base_phase ns =
      Processment.senoidal_wave frequency rate base_phase ns.sum := by
  induction ns generalizing base_phase with
  | nil => simp [Processment.senoidal_blocks, Processment.senoidal_wave]
  | cons n rest ih =>
      rw [Processment.senoidal_blocks, ih, List.sum_cons]
      unfold Processment.senoidal_wave
      rw [List.range_add, List.map_append, List.map_map]
      congr 1
      refine List.map_congr_left fun i _ => ?_
      have : ((n + i : ℕ) : ℝ) + base_phase = (i : ℝ) + (base_phase + (n : ℝ)) := by
        push_cast; ring
      simp only [Function.comp_apply, this]

/-- C9: applying a config whose buffer size differs, with the stream running
and the new config enabled, produces exactly the event trace
[stream stop, stream start]: one stop, then one start, nothing else. -/
theorem update_config_restart_trace (s : Processor.APState) (c : Models.AudioConfig)
    (hs : s.stream = true) (hb : s.config.buffer_size ≠ c.buffer_size)
    (he : c.enabled = true) :
    (Processor.update_config s c).2 = [Processor.Event.stop, Processor.Event.start] := by
  have hr : s.config.input_device ≠ c.input_device ∨
      s.config.output_device ≠ c.output_device ∨
      s.config.buffer_size ≠ c.buffer_size ∨
      s.config.sample_rate ≠ c.sample_rate := Or.inr (Or.inr (Or.inl hb))
  unfold Processor.update_config Processor.stopAP Processor.startAP
  simp [hr, hs, he]

/-- Witness for C9 at a concrete running state and a buffer-size change. -/
theorem update_config_restart_trace_witness :
    (Processor.update_config
        ⟨⟨none, none, 512, 48000, true⟩, 48000, true, true⟩
        ⟨none, none, 1024, 48000, true⟩).2 =
      [Processor.Event.stop, Processor.Event.start] :=
  update_config_restart_trace
    ⟨⟨none, none, 512, 48000, true⟩, 48000, true, true⟩
    ⟨none, none, 1024, 48000, true⟩ rfl (by decide) rfl

/-- Closed form of a `linspace` entry in the generic (`num >= 2`) case. -/
theorem linspace_getD (a b : ℚ) (n i : ℕ) (hn : 2 ≤ n) (hi : i < n) :
    (Research.linspace a b n).getD i 0 = a + (b - a) * i / ((n : ℚ) - 1) := by
  unfold Research.linspace
  rw [if_neg (by omega), if_neg (by omega), getD_range_map _ n i hi]

/-- The sample index `n/2` of an `n`-point linear ramp carries a weight within
`1/(2(n-1))` of one half: exact for odd `n`, off by one half-step for even `n`. -/
theorem midpoint_weight_bound (n : ℕ) (hn : 2 ≤ n) :
    |((n / 2 : ℕ) : ℚ) / ((n : ℚ) - 1) - 1 / 2| ≤ 1 / (2 * ((n : ℚ) - 1)) := by
  rcases Nat.even_or_odd n with ⟨k, hk⟩ | ⟨k, hk⟩
  · have hk1 : 1 ≤ k := by omega
    have hdiv : n / 2 = k := by omega
    have hcast : ((n : ℚ) - 1) = 2 * (k : ℚ) - 1 := by
      rw [hk]; push_cast; ring
    have hkq : (1 : ℚ) ≤ (k : ℚ) := by exact_mod_cast hk1
    have hpos : (0 : ℚ) < 2 * (k : ℚ) - 1 := by linarith
    rw [hdiv, hcast]
    have heq : (k : ℚ) / (2 * (k : ℚ) - 1) - 1 / 2 = 1 / (2 * (2 * (k : ℚ) - 1)) := by
      field_simp
      ring
    rw [heq, abs_of_nonneg (by positivity)]
  · have hk1 : 1 ≤ k := by omega
    have hdiv : n / 2 = k := by omega
    have hcast : ((n : ℚ) - 1) = 2 * (k : ℚ) := by
      rw [hk]; push_cast; ring
    have hkq : (1 : ℚ) ≤ (k : ℚ) := by exact_mod_cast hk1
    have hpos : (0 : ℚ) < 2 * (k : ℚ) := by linarith
    rw [hdiv, hcast]
    have heq : (k : ℚ) / (2 * (k : ℚ)) - 1 / 2 = 0 := by
      field_simp
      ring
    rw [heq, abs_zero]
    positivity

/-- C6: in the crossfade of the Analysis/Resynthesis Stage, the linear fade-in
and fade-out weights sum to 1 at every sample index of the overlap region, and
the blended sample at the fade midpoint (index `n/2` of the `n`-sample
overlap) is the average of the two contributing frames' samples within the
half-step interpolation tolerance `|s - p| / (2(n-1))` (exactly the average
when the overlap length is odd). -/
theorem crossfade_weights_midpoint (synthesized prev_tail : List ℚ) (n i : ℕ)
    (hn : 2 ≤ n) (hi : i < n) (hlen : n ≤ synthesized.length) :
    (Research.linspace 0 1 n).getD i 0 + (Research.linspace 1 0 n).getD i 0 = 1 ∧
      |(Research.crossfade synthesized prev_tail n).getD (n / 2) 0 -
          (synthesized.getD (n / 2) 0 + prev_tail.getD (n / 2) 0) / 2| ≤
        |synthesized.getD (n / 2) 0 - prev_tail.getD (n / 2) 0| /
          (2 * ((n : ℚ) - 1)) := by
  constructor
  · rw [linspace_getD 0 1 n i hn hi, linspace_getD 1 0 n i hn hi]
    ring
  · have hmid : n / 2 < n := Nat.div_lt_self (by omega) (by omega)
    have hmid' : n / 2 < synthesized.length := lt_of_lt_of_le hmid hlen
    unfold Research.crossfade
    rw [getD_range_map _ synthesized.length (n / 2) hmid' 0, if_pos hmid,
      linspace_getD 0 1 n (n / 2) hn hmid, linspace_getD 1 0 n (n / 2) hn hmid]
    set s := synthesized.getD (n / 2) 0 with hs
    set p := prev_tail.getD (n / 2) 0 with hp
    set w := ((n / 2 : ℕ) : ℚ) / ((n : ℚ) - 1) with hw
    have key : s * (0 + (1 - 0) * ((n / 2 : ℕ) : ℚ) / ((n : ℚ) - 1)) +
        p * (1 + (0 - 1) * ((n / 2 : ℕ) : ℚ) / ((n : ℚ) - 1)) - (s + p) / 2 =
        (s - p) * (w - 1 / 2) := by
      rw [hw]; ring
    rw [key, abs_mul]
    calc |s - p| * |w - 1 / 2| ≤ |s - p| * (1 / (2 * ((n : ℚ) - 1))) :=
          mul_le_mul_of_nonneg_left (midpoint_weight_bound n hn) (abs_nonneg _)
      _ = |s - p| / (2 * ((n : ℚ) - 1)) := by rw [mul_one_div]

/-- Witness for C6 at a concrete 4-sample overlap. -/
theorem crossfade_weights_midpoint_witness :
    (Research.linspace 0 1 4).getD 1 0 + (Research.linspace 1 0 4).getD 1 0 = 1 ∧
      |(Research.crossfade [1, 2, 3, 4] [5, 6, 7, 8] 4).getD (4 / 2) 0 -
          (([1, 2, 3, 4] : List ℚ).getD (4 / 2) 0 +
            ([5, 6, 7, 8] : List ℚ).getD (4 / 2) 0) / 2| ≤
        |([1, 2, 3, 4] : List ℚ).getD (4 / 2) 0 -
            ([5, 6, 7, 8] : List ℚ).getD (4 / 2) 0| / (2 * ((4 : ℚ) - 1)) :=
  crossfade_weights_midpoint [1, 2, 3, 4] [5, 6, 7, 8] 4 1
    (by decide) (by decide) (by decide)

/-- C8: when, after appending the incoming block, the accumulation buffer
still holds fewer samples than one analysis frame, the Analysis/Resynthesis
Stage returns the incoming block weighted 0.9 plus the previous synthesized
tail truncated to the block length weighted 0.1, only appends to the buffer,
and performs no analysis or synthesis on that call (the result is the same for
every analysis/synthesis oracle). -/
theorem analyze_short_buffer_blend (world world2 : List ℚ → List ℚ)
    (st : Research.ResearchLayer) (frame : List ℚ)
    (hlen : st.buffer.length + frame.length < st.frame_length) :
    (Research.analyze_and_synthesize world st frame).1 =
        List.zipWith (fun a b => a * (9 / 10) + b * (1 / 10))
          frame (st.prev_tail.take frame.length) ∧
      (Research.analyze_and_synthesize world st frame).2.buffer =
        st.buffer ++ frame ∧
      (Research.analyze_and_synthesize world st frame).2.prev_tail =
        st.prev_tail ∧
      Research.analyze_and_synthesize world st frame =
        Research.analyze_and_synthesize world2 st frame := by
  have hcond : (st.buffer ++ frame).length < st.frame_length := by
    rw [List.length_append]; exact hlen
  unfold Research.analyze_and_synthesize
  rw [if_pos hcond, if_pos hcond]
  exact ⟨rfl, rfl, rfl, rfl⟩

/-- Witness for C8 at a concrete under-filled buffer. -/
theorem analyze_short_buffer_blend_witness :
    (Research.analyze_and_synthesize id ⟨48000, 4, 2, [], [0, 0, 0, 0], 1/2⟩
        [1/2]).1 =
        List.zipWith (fun a b => a * (9 / 10) + b * (1 / 10))
          [1/2] (([0, 0, 0, 0] : List ℚ).take ([1/2] : List ℚ).length) ∧
      (Research.analyze_and_synthesize id ⟨48000, 4, 2, [], [0, 0, 0, 0], 1/2⟩
          [1/2]).2.buffer = [] ++ [1/2] ∧
      (Research.analyze_and_synthesize id ⟨48000, 4, 2, [], [0, 0, 0, 0], 1/2⟩
          [1/2]).2.prev_tail = [0, 0, 0, 0] ∧
      Research.analyze_and_synthesize id ⟨48000, 4, 2, [], [0, 0, 0, 0], 1/2⟩
          [1/2] =
        Research.analyze_and_synthesize (fun _ => [])
          ⟨48000, 4, 2, [], [0, 0, 0, 0], 1/2⟩ [1/2] :=
  analyze_short_buffer_blend id (fun _ => [])
    ⟨48000, 4, 2, [], [0, 0, 0, 0], 1/2⟩ [1/2] (by decide)

/-- The peak magnitude is never negative. -/
theorem maxAbs_nonneg (xs : List ℝ) : 0 ≤ Processor.maxAbs xs := by
  induction xs with
  | nil => simp [Processor.maxAbs]
  | cons x xs ih =>
      unfold Processor.maxAbs at ih ⊢
      rw [List.foldr_cons]
      exact le_trans ih (le_max_right _ _)

/-- Scaling a block by a nonnegative factor scales its peak magnitude. -/
theorem maxAbs_map_mul (xs : List ℝ) (c : ℝ) (hc : 0 ≤ c) :
    Processor.maxAbs (xs.map fun x => x * c) = Processor.maxAbs xs * c := by
  induction xs with
  | nil => simp [Processor.maxAbs]
  | cons x xs ih =>
      unfold Processor.maxAbs at ih ⊢
      rw [List.map_cons, List.foldr_cons, List.foldr_cons, ih,
        abs_mul, abs_of_nonneg hc, max_mul_of_nonneg _ _ hc]

/-- C2: the normalization step of `_process_audio` scales the whole block by
the single factor `0.95 / peak` to a peak of exactly 0.95 whenever the
pre-normalization peak exceeds 0.95, leaves the block unchanged otherwise, and
therefore always yields a peak magnitude of at most 0.95. -/
theorem normalize_peak (audio : List ℝ) (hne : audio ≠ []) :
    (0.95 < Processor.maxAbs audio →
        Processor.normalize audio =
          audio.map (fun x => x * (0.95 / Processor.maxAbs audio)) ∧
        Processor.maxAbs (Processor.normalize audio) = 0.95) ∧
      (Processor.maxAbs audio ≤ 0.95 → Processor.normalize audio = audio) ∧
      Processor.maxAbs (Processor.normalize audio) ≤ 0.95 := by
  have hnn := maxAbs_nonneg audio
  by_cases h : 0.95 < Processor.maxAbs audio
  · have hne0 : Processor.maxAbs audio ≠ 0 := by positivity
    have hdiv : (0 : ℝ) ≤ 0.95 / Processor.maxAbs audio := by positivity
    have hmap : Processor.normalize audio =
        audio.map (fun x => x * (0.95 / Processor.maxAbs audio)) := by
      unfold Processor.normalize
      rw [if_pos h]
    have hpk : Processor.maxAbs (Processor.normalize audio) = 0.95 := by
      rw [hmap, maxAbs_map_mul _ _ hdiv, mul_comm, div_mul_cancel₀ _ hne0]
    exact ⟨fun _ => ⟨hmap, hpk⟩, fun hle => absurd h (not_lt.mpr hle),
      le_of_eq hpk⟩
  · have hid : Processor.normalize audio = audio := by
      unfold Processor.normalize
      rw [if_neg h]
    exact ⟨fun hgt => absurd hgt h, fun _ => hid,
      by rw [hid]; exact not_lt.mp h⟩

/-- Witness for C2 at a concrete block whose peak (3) exceeds 0.95. -/
theorem normalize_peak_witness :
    (0.95 < Processor.maxAbs [3, -2] →
        Processor.normalize [3, -2] =
          ([3, -2] : List ℝ).map (fun x => x * (0.95 / Processor.maxAbs [3, -2])) ∧
        Processor.maxAbs (Processor.normalize [3, -2]) = 0.95) ∧
      (Processor.maxAbs [3, -2] ≤ 0.95 → Processor.normalize [3, -2] = [3, -2]) ∧
      Processor.maxAbs (Processor.normalize [3, -2]) ≤ 0.95 :=
  normalize_peak [3, -2] (by simp)

/-- C1: with an active profile at the identity settings (`pitch_shift = 0`,
`formant_shift = 1`, `resonance = 0`, `brightness = 0`) every transform gate
of `_process_audio` is bypassed, so the block passes through unchanged except
for the final normalization step; in particular the output equals the input
exactly whenever the input peak magnitude is at most 0.95. -/
theorem process_audio_identity (p : Models.VoiceProfile) (sr : ℕ)
    (window audio : List ℝ) (hne : audio ≠ [])
    (hp : p.pitch_shift = 0) (hf : p.formant_shift = 1) (hr : p.resonance = 0)
    (hb : p.brightness = 0) (hpeak : Processor.maxAbs audio ≤ 0.95) :
    Processor.process_audio p sr window audio = some audio := by
  unfold Processor.process_audio
  rw [hp, hf, hr, hb]
  norm_num
  unfold Processor.normalize
  rw [if_neg (not_lt.mpr hpeak)]

/-- Witness for C1 at the default profile values and a small in-range block. -/
theorem process_audio_identity_witness :
    Processor.process_audio ⟨"Default", 0, 1, 0, 0, 1, 50, 0⟩ 48000
        (Processor.hanning 2048) [0, 1/2] = some [0, 1/2] :=
  process_audio_identity ⟨"Default", 0, 1, 0, 0, 1, 50, 0⟩ 48000
    (Processor.hanning 2048) [0, 1/2] (by simp) rfl rfl rfl rfl
    (by
      unfold Processor.maxAbs
      norm_num [max_le_iff, abs_le])

/-- The transform `irfft` always produces exactly the requested number of samples. -/
theorem irfft_length (spec : List ℂ) (n : ℕ) : (Processor.irfft spec n).length = n := by
  unfold Processor.irfft
  simp

/-- The transform `rfft` produces `n/2 + 1` bins. -/
theorem rfft_length (xs : List ℝ) : (Processor.rfft xs).length = xs.length / 2 + 1 := by
  unfold Processor.rfft
  simp

/-- The helper `rfftfreq` produces `n/2 + 1` frequencies. -/
theorem rfftfreq_length (n sr : ℕ) :
    (Processor.rfftfreq n sr).length = n / 2 + 1 := by
  unfold Processor.rfftfreq
  simp

/-- The helper `resample` always produces exactly the requested number of samples. -/
theorem resample_length (xs : List ℝ) (num : ℕ) :
    (Processor.resample xs num).length = num := by
  unfold Processor.resample
  rw [List.length_map, irfft_length]

/-- Stage `_pitch_shift` preserves the block length on every non-empty block. -/
theorem pitch_shift_length (audio : List ℝ) (semi : ℚ) (hne : audio ≠ []) :
    (Processor.pitch_shift audio semi).map List.length = some audio.length := by
  have hxl : (((List.range audio.length).map fun (i : ℕ) => (i : ℝ))).length =
      audio.length := by simp
  have hxne : ((List.range audio.length).map fun (i : ℕ) => (i : ℝ)) ≠ [] := by
    apply List.ne_nil_of_length_pos
    rw [hxl]
    exact List.length_pos.mpr hne
  by_cases hbp : |semi| < 1/100
  · simp only [Processor.pitch_shift, if_pos hbp, Option.map_some']
  · simp only [Processor.pitch_shift, if_neg hbp, Processor.np_interp_points,
      if_pos (And.intro hxl hxne), Option.map_some']
    congr 1
    split_ifs with hl
    · exact resample_length _ _
    · exact not_ne_iff.mp hl

/-- Stage `_formant_shift` preserves the block length whenever the block length
matches the STFT window length. -/
theorem formant_shift_length (sr : ℕ) (window audio : List ℝ) (shift : ℚ)
    (hw : audio.length = window.length) :
    (Processor.formant_shift sr window audio shift).map List.length =
      some audio.length := by
  unfold Processor.formant_shift
  by_cases hb : |shift - 1| < 1/100
  · rw [if_pos hb]
    rfl
  · rw [if_neg hb]
    unfold Processor.npMul
    rw [if_pos hw]
    simp only [Option.some_bind]
    have hwl : (List.zipWith (· * ·) audio window).length = audio.length := by
      rw [List.length_zipWith, ← hw, min_self]
    unfold Processor.np_interp_points
    have hfl : ((Processor.rfftfreq audio.length sr).map
        fun f => f * ((shift : ℚ) : ℝ)).length = audio.length / 2 + 1 := by
      rw [List.length_map, rfftfreq_length]
    have hsl : ((Processor.rfft (List.zipWith (· * ·) audio window)).map
        Complex.abs).length = audio.length / 2 + 1 := by
      rw [List.length_map, rfft_length, hwl]
    have hxne : (Processor.rfftfreq audio.length sr).map
        (fun f => f * ((shift : ℚ) : ℝ)) ≠ [] := by
      apply List.ne_nil_of_length_pos
      rw [hfl]
      omega
    rw [if_pos ⟨hfl.trans hsl.symm, hxne⟩]
    simp only [Option.map_some']
    congr 1
    rw [irfft_length]

/-- Stage `_apply_resonance` preserves the block length whenever the sample rate is
at least 100 Hz (so the 10 ms delay is at least one sample). -/
theorem apply_resonance_length (sr : ℕ) (audio : List ℝ) (res : ℚ)
    (hsr : 100 ≤ sr) :
    (Processor.apply_resonance sr audio res).map List.length =
      some audio.length := by
  unfold Processor.apply_resonance
  by_cases hb : res < 1
  · rw [if_pos hb]
    rfl
  · rw [if_neg hb]
    have hd : 1 ≤ sr / 100 := (Nat.one_le_div_iff (by norm_num)).mpr hsr
    by_cases hlt : sr / 100 < audio.length
    · have hlen : ((List.replicate (sr / 100) (0 : ℝ) ++
          audio.take (audio.length - sr / 100)).map
            fun d => d * (((res : ℚ) : ℝ) / 100) * (3 / 10)).length =
          audio.length := by
        simp only [List.length_map, List.length_append, List.length_replicate,
          List.length_take]
        omega
      simp only [Processor.apply_resonance, if_neg hb, if_pos hlt,
        if_neg (show ¬ sr / 100 = 0 by omega), Processor.npAdd]
      rw [if_pos hlen.symm]
      simp only [Option.map_some']
      congr 1
      rw [List.length_zipWith, hlen, min_self]
    · rw [if_neg hlt]
      rfl

/-- Stage `_apply_brightness` preserves the block length unconditionally. -/
theorem apply_brightness_length (sr : ℕ) (audio : List ℝ) (b : ℚ) :
    (Processor.apply_brightness sr audio b).length = audio.length := by
  unfold Processor.apply_brightness
  by_cases hb : |b| < 1/10
  · rw [if_pos hb]
  · rw [if_neg hb]
    exact irfft_length _ _

/-- C10 (counterexample): two stages do NOT return a same-length array for
every non-empty block and parameter value.  `_formant_shift` windows the block
against the fixed 2048-sample STFT window, so for a 3-sample block (or the
default 512-sample buffer) the numpy broadcast `audio * self.window` raises a
shape mismatch; `_apply_resonance` at a 50 Hz sample rate has a zero-sample
delay, making `audio[:-0]` empty and the numpy sum a shape mismatch. -/
theorem stage_length_cex :
    Processor.formant_shift 48000 (Processor.hanning 2048) [1/2, 1/4, 1/8]
        (6/5) = none ∧
      Processor.apply_resonance 50 [1/2, 1/4, 1/8] 50 = none := by
  constructor
  · unfold Processor.formant_shift
    rw [if_neg (by
      rw [show (6/5 : ℚ) - 1 = 1/5 by norm_num,
        abs_of_nonneg (by norm_num : (0 : ℚ) ≤ 1/5)]
      norm_num)]
    unfold Processor.npMul
    have hw : (Processor.hanning 2048).length = 2048 := by
      unfold Processor.hanning
      simp
    rw [hw]
    norm_num
  · unfold Processor.apply_resonance
    rw [if_neg (by norm_num)]
    norm_num [Processor.npAdd]

/-- C10 (amended): each spectral transform stage returns an output of exactly
the input length on every non-empty block, provided the sample rate is at
least 100 Hz (resonance's 10 ms delay is then at least one sample) and, for
the formant stage, the block length equals the STFT window length; outside
those conditions the formant and resonance stages fault on a numpy shape
mismatch instead of returning an array. -/
theorem stage_output_lengths (audio window : List ℝ) (sr : ℕ)
    (semi shift res bright : ℚ) (hne : audio ≠ []) (hsr : 100 ≤ sr)
    (hw : audio.length = window.length) :
    (Processor.pitch_shift audio semi).map List.length = some audio.length ∧
      (Processor.formant_shift sr window audio shift).map List.length =
        some audio.length ∧
      (Processor.apply_resonance sr audio res).map List.length =
        some audio.length ∧
      (Processor.apply_brightness sr audio bright).length = audio.length :=
  ⟨pitch_shift_length audio semi hne,
    formant_shift_length sr window audio shift hw,
    apply_resonance_length sr audio res hsr,
    apply_brightness_length sr audio bright⟩

/-- Witness for C10's amended theorem at a 2-sample block with a matching
2-sample window. -/
theorem stage_output_lengths_witness :
    (Processor.pitch_shift [1, 2] 3).map List.length =
        some (([1, 2] : List ℝ).length) ∧
      (Processor.formant_shift 48000 [1, 1] [1, 2] (6/5)).map List.length =
        some (([1, 2] : List ℝ).length) ∧
      (Processor.apply_resonance 48000 [1, 2] 50).map List.length =
        some (([1, 2] : List ℝ).length) ∧
      (Processor.apply_brightness 48000 [1, 2] 5).length =
        ([1, 2] : List ℝ).length :=
  stage_output_lengths [1, 2] [1, 1] 48000 3 (6/5) 50 5
    (by simp) (by norm_num) rfl

end Theorems
